import Mathlib

/-!
Verification development for the oracle-mcp-server repository.

The Go sources are shallowly embedded over `List Nat` (each `Nat` is a rune
code point; all concrete inputs used below are ASCII, and the Unicode
character-class and case-folding functions of the Go standard library are
modelled on the ASCII range, where they agree with the definitions here).

Embedded components:
* `internal/sqlanalyzer/analyzer.go` — comment/string-literal stripping,
  tokenisation, DDL detection and danger-keyword matching (both policies);
* `internal/oracle/pool.go` — the multi-connection execution router with
  its Healthy/Failed partition, demotion on connection-class errors and
  opportunistic retry;
* `internal/mcp/server.go` — the `handleExecuteSQL` orchestration
  (confirmation gate, execution, audit record emission);
* `internal/confirm` (Windows implementation) — `Confirmer.Confirm`
  abstracted over the outcome of its file writes, the dialog subprocess and
  the result-file read;
* `internal/audit` — `Auditor.Log` and `Auditor.rotateOpen` with the
  byte counter and size-based rotation, abstracted over the success of
  opening a new file.

A reference lexer (`specStringMask`), modelled from the specification's
words rather than from the code, classifies the characters of a SQL text
that lie inside single-quoted string literals (with `''` escapes) or
comments; it is used to state the "keyword occurs only inside a string
literal" hypotheses of the token-mode safety claim.
-/

namespace OracleMCP

/-- A rune string: list of Unicode code points. -/
abbrev Str := List Nat

/-- Convert a Lean string literal to its list of code points. -/
def str (s : String) : Str := s.toList.map Char.toNat

/-- Go `unicode.IsSpace` restricted to the code points it recognises in
the Latin-1 range: tab, LF, VT, FF, CR, space, NEL, NBSP. -/
def isSpaceRune (c : Nat) : Bool :=
  c == 9 || c == 10 || c == 11 || c == 12 || c == 13 || c == 32 || c == 133 || c == 160

/-- Go `strings.ToLower` on one rune, ASCII range. -/
def toLowerRune (c : Nat) : Nat :=
  if 65 ≤ c ∧ c ≤ 90 then c + 32 else c

/-- Character class used by `tokenize`: Go
`unicode.IsLetter(c) || unicode.IsDigit(c) || c == '_'` on the ASCII range. -/
def isIdentRune (c : Nat) : Bool :=
  (97 ≤ c && c ≤ 122) || (65 ≤ c && c ≤ 90) || (48 ≤ c && c ≤ 57) || c == 95

/-- Go `strings.TrimSpace`: drop leading and trailing whitespace runes. -/
def trimSpace (l : Str) : Str :=
  ((l.dropWhile isSpaceRune).reverse.dropWhile isSpaceRune).reverse

/-- Go `strings.ToLower` on a whole string (ASCII model). -/
def lowerStr (l : Str) : Str := l.map toLowerRune

/-- Whether two given runes occur adjacently somewhere in the list.
`hasPair 45 45 l` detects a `--` comment starter, `hasPair 47 42 l` a
`/*` comment starter, `hasPair 39 39 l` an adjacent pair of quotes. -/
def hasPair (a b : Nat) : List Nat → Bool
  | [] => false
  | [_] => false
  | c1 :: c2 :: rest => (c1 == a && c2 == b) || hasPair a b (c2 :: rest)

/-- Go `strings.HasPrefix` / `bytes.HasPrefix` via `List.isPrefixOf`. -/
def hasSubstr (l pat : Str) : Bool :=
  pat.isPrefixOf l ||
    match l with
    | [] => false
    | _ :: rest => hasSubstr rest pat

/-! ### internal/sqlanalyzer/analyzer.go -/

/-- Scanner equivalent of the regex replacement of single-line comments in
`removeComments` (pattern: two dashes followed by the maximal run of
non-CR/LF characters, each match replaced by a single space).  The `Bool`
state is true while skipping the body of a comment; the terminating CR/LF
itself is not part of the match and is kept. -/
def rlcAux : Bool → Str → Str
  | false, [] => []
  | false, c1 :: rest =>
    match rest with
    | [] => [c1]
    | c2 :: rest2 =>
      if c1 == 45 && c2 == 45 then
        32 :: rlcAux true rest2
      else
        c1 :: rlcAux false (c2 :: rest2)
  | true, [] => []
  | true, c :: rest =>
    if c == 13 || c == 10 then c :: rlcAux false rest else rlcAux true rest

/-- Single-line comment removal (first step of Go `removeComments`). -/
def removeLineComments (l : Str) : Str := rlcAux false l

/-- Scanner equivalent of the regex replacement of block comments in
`removeComments` (non-greedy pattern from a slash-star to the nearest
star-slash, each match replaced by a single space).  A slash-star with no
later star-slash matches nothing — and then no later slash-star can match
either, so the remainder is returned unchanged.  The `Bool` state is true
while skipping a comment body whose closing star-slash is known to exist. -/
def rbcAux : Bool → Str → Str
  | false, [] => []
  | false, c1 :: rest =>
    match rest with
    | [] => [c1]
    | c2 :: rest2 =>
      if c1 == 47 && c2 == 42 then
        if hasPair 42 47 rest2 then 32 :: rbcAux true rest2
        else c1 :: c2 :: rest2
      else
        c1 :: rbcAux false (c2 :: rest2)
  | true, [] => []
  | true, c1 :: rest =>
    match rest with
    | [] => []
    | c2 :: rest2 =>
      if c1 == 42 && c2 == 47 then rbcAux false rest2 else rbcAux true (c2 :: rest2)

/-- Block comment removal (second step of Go `removeComments`). -/
def removeBlockComments (l : Str) : Str := rbcAux false l

/-- Go `removeComments`: first all single-line comments, then all block
comments, are each replaced by a single space. -/
def removeComments (l : Str) : Str :=
  removeBlockComments (removeLineComments l)

/-- Loop body of Go `removeStringLiterals`: state is `(inString, prevChar)`;
a quote whose predecessor is not a quote toggles `inString` and is written
as a space; any character while `inString` is written as a space; all other
characters are copied. -/
def removeStringLiteralsAux (inString : Bool) (prev : Nat) : Str → Str
  | [] => []
  | c :: rest =>
    if c == 39 && prev != 39 then
      32 :: removeStringLiteralsAux (!inString) c rest
    else if inString then
      32 :: removeStringLiteralsAux inString c rest
    else
      c :: removeStringLiteralsAux inString c rest

/-- Go `removeStringLiterals`: initial state `inString = false`,
`prevChar = rune(0)`. -/
def removeStringLiterals (l : Str) : Str :=
  removeStringLiteralsAux false 0 l

/-- Loop of Go `tokenize`: `acc` is the current token accumulated in
reverse; the input has already been lowercased. -/
def tokenizeAux (acc : Str) : Str → List Str
  | [] => if acc.isEmpty then [] else [acc.reverse]
  | c :: rest =>
    if isIdentRune c then
      tokenizeAux (c :: acc) rest
    else if acc.isEmpty then
      tokenizeAux [] rest
    else
      acc.reverse :: tokenizeAux [] rest

/-- Go `tokenize`: lowercase, then split into maximal runs of
letters/digits/underscore; separators are discarded. -/
def tokenize (l : Str) : List Str :=
  tokenizeAux [] (lowerStr l)

/-- The fixed DDL verb list of `NewAnalyzer`. -/
def ddlKeywords : List Str :=
  [str "create", str "drop", str "alter", str "truncate",
   str "rename", str "comment", str "grant", str "revoke"]

/-- Go `(*Analyzer).isDDL`: the first token is compared for equality
against each DDL verb. -/
def isDDLTokens (tokens : List Str) : Bool :=
  match tokens with
  | [] => false
  | firstToken :: _ => ddlKeywords.any (fun kw => firstToken == kw)

/-- The two danger-keyword matching policies. -/
inductive MatchMode where
  | wholeText
  | tokens
deriving DecidableEq

/-- Mode normalisation in `NewAnalyzer`: lowercase/trim, and anything other
than "whole_text" or "tokens" falls back to "whole_text". -/
def parseMatchMode (s : Str) : MatchMode :=
  let m := lowerStr (trimSpace s)
  if m = str "whole_text" then .wholeText
  else if m = str "tokens" then .tokens
  else .wholeText

/-- Keyword normalisation in `NewAnalyzer`:
`strings.ToLower(strings.TrimSpace(kw))`. -/
def normalizeKeyword (kw : Str) : Str := lowerStr (trimSpace kw)

/-- The `Analyzer` struct: normalised danger keywords and the match mode
(the fixed `ddlKeywords` list is kept as the global definition above). -/
structure Analyzer where
  dangerKeywords : List Str
  matchMode : MatchMode
deriving DecidableEq

/-- Go `NewAnalyzer`. -/
def newAnalyzer (dangerKeywords : List Str) (matchMode : Str) : Analyzer :=
  { dangerKeywords := dangerKeywords.map normalizeKeyword
    matchMode := parseMatchMode matchMode }

/-- Go `matchKeywordsWholeText`: all configured keywords that occur as a
substring of the lowercased original SQL, in configuration order (no
de-duplication is performed in this mode). -/
def matchKeywordsWholeText (kws : List Str) (sql : Str) : List Str :=
  kws.filter (fun kw => hasSubstr (lowerStr sql) kw)

/-- Go `matchConsecutiveTokens`: the keyword's tokens appear consecutively
in the statement's tokens (a sliding-window equality check). -/
def matchConsecutiveTokens (tokens kwTokens : List Str) : Bool :=
  kwTokens.isPrefixOf tokens ||
    match tokens with
    | [] => false
    | _ :: rest => matchConsecutiveTokens rest kwTokens

/-- Loop of Go `matchKeywords` (tokens mode): keywords already in `seen`
are skipped; a keyword tokenising to nothing is skipped; a single-word
keyword requires an exact token match, a multi-word keyword a consecutive
match; matched keywords are recorded in `seen`. -/
def matchKeywordsTokensAux (tokens : List Str) (seen : List Str) : List Str → List Str
  | [] => []
  | kw :: rest =>
    if kw ∈ seen then
      matchKeywordsTokensAux tokens seen rest
    else
      match tokenize kw with
      | [] => matchKeywordsTokensAux tokens seen rest
      | [k0] =>
        if tokens.contains k0 then
          kw :: matchKeywordsTokensAux tokens (kw :: seen) rest
        else
          matchKeywordsTokensAux tokens seen rest
      | k0 :: k1 :: krest =>
        if matchConsecutiveTokens tokens (k0 :: k1 :: krest) then
          kw :: matchKeywordsTokensAux tokens (kw :: seen) rest
        else
          matchKeywordsTokensAux tokens seen rest

/-- Go `matchKeywords`. -/
def matchKeywordsTokens (kws : List Str) (tokens : List Str) : List Str :=
  matchKeywordsTokensAux tokens [] kws

/-- The fields of Go `AnalysisResult` used by the claims under study
(`OriginalSQL`, `IsMultiStatement`, `ContainsPLSQL` and
`IsPLSQLCreationDDL` play no role in any claim and are not modelled). -/
structure AnalysisResult where
  normalizedSQL : Str
  tokens : List Str
  matchedKeywords : List Str
  isDangerous : Bool
  isDDL : Bool
deriving DecidableEq

/-- Go `(*Analyzer).Analyze`: strip comments, strip string literals,
tokenize, detect DDL, then match danger keywords against the full SQL
(whole-text mode) or the tokens (tokens mode). -/
def analyze (a : Analyzer) (sql : Str) : AnalysisResult :=
  let noComments := removeComments sql
  let noStrings := removeStringLiterals noComments
  let tokens := tokenize noStrings
  let matched :=
    match a.matchMode with
    | .wholeText => matchKeywordsWholeText a.dangerKeywords sql
    | .tokens => matchKeywordsTokens a.dangerKeywords tokens
  { normalizedSQL := noStrings
    tokens := tokens
    matchedKeywords := matched
    isDangerous := !matched.isEmpty
    isDDL := isDDLTokens tokens }

example : removeComments (str "SELECT * FROM users -- this is a comment") =
    str "SELECT * FROM users  " := by decide
example : removeComments (str "SELECT /* comment */ * FROM users") =
    str "SELECT   * FROM users" := by decide
example : tokenize (str "SELECT x_1, y FROM t") =
    [str "select", str "x_1", str "y", str "from", str "t"] := by decide
example : (analyze (newAnalyzer [str "truncate", str "drop", str "alter system"]
    (str "tokens")) (str "SELECT 'drop table' FROM dual")).isDangerous = false := by decide
example : (analyze (newAnalyzer [str "truncate", str "drop", str "alter system"]
    (str "tokens")) (str "ALTER SYSTEM SET some_param = 'value'")).matchedKeywords =
    [str "alter system"] := by decide
example : (analyze (newAnalyzer [str "truncate", str "drop", str "create"]
    (str "whole_text")) (str "SELECT 'drop table' FROM dual")).matchedKeywords =
    [str "drop"] := by decide

/-! ### Reference lexer, modelled from the specification

The definitions in this section are NOT translations of the Go code; they
follow the specification's description of SQL lexical structure (single
quotes delimit string literals, a doubled quote inside a literal is an
escaped quote, two dashes start a line comment running to end of line,
slash-star starts a block comment running to the nearest star-slash, an
unterminated literal or comment extends to end of input).  They are used
only to state the hypothesis "the keyword occurs only inside a string
literal" of the token-mode safety claim. -/

/-- Lexer state of the reference lexer. -/
inductive SpecState where
  | code
  | instring
  | lineComment
  | blockComment
deriving DecidableEq

/-- Modelled from the spec: character-by-character classification of a SQL
text, marking `true` exactly at the characters that belong to a
single-quoted string literal (delimiting quotes included, with a doubled
quote inside a literal treated as an escaped quote).  Quotes inside
comments do not open literals; comment markers inside literals do not open
comments. -/
def specStringMask : SpecState → Str → List Bool
  | _, [] => []
  | .code, c :: rest =>
    if c = 39 then true :: specStringMask .instring rest
    else if c = 45 ∧ rest.head? = some 45 then
      false :: specStringMask .lineComment rest
    else if c = 47 ∧ rest.head? = some 42 then
      false :: specStringMask .blockComment rest
    else
      false :: specStringMask .code rest
  | .instring, c :: rest =>
    if c = 39 then
      if rest.head? = some 39 then
        match rest with
        | [] => [true]
        | _ :: rest2 => true :: true :: specStringMask .instring rest2
      else
        true :: specStringMask .code rest
    else
      true :: specStringMask .instring rest
  | .lineComment, c :: rest =>
    false :: specStringMask (if c = 10 ∨ c = 13 then .code else .lineComment) rest
  | .blockComment, c :: rest =>
    if c = 42 ∧ rest.head? = some 47 then
      match rest with
      | [] => [false]
      | _ :: rest2 => false :: false :: specStringMask .code rest2
    else
      false :: specStringMask .blockComment rest

/-- Modelled from the spec: blank (with spaces) exactly the characters of
the text that lie inside a single-quoted string literal, as classified by
the reference lexer.  A keyword occurs "only inside string literals" iff
it does not occur in this blanked text. -/
def specBlank (l : Str) : Str :=
  List.zipWith (fun m c => if m then 32 else c) (specStringMask .code l) l

example : specBlank (str "SELECT 'it''s drop' FROM dual") =
    str "SELECT              FROM dual" := by decide
example : specBlank (str "SELECT x -- 'no literal\nFROM t") =
    str "SELECT x -- 'no literal\nFROM t" := by decide

/-! ### internal/oracle/pool.go

The `ExecutorPool` router.  Executor handles are abstracted away: the pool
records which names currently hold a live handle (`executors`, the keys of
the Go `executors` map), the failed name-to-DSN entries (`failed`), the
full name-to-DSN map (`dsns`) and the stable name list (`names`).  The
behaviour of the underlying database is a parameter: `run` gives the
outcome of `(*Executor).Execute` on the named connection, and `connect`
says whether `NewExecutor` succeeds for a DSN. -/

/-- Association-list lookup, modelling a Go map read. -/
def lookupPair (l : List (Str × Str)) (n : Str) : Option Str :=
  match l with
  | [] => none
  | (k, v) :: rest => if k = n then some v else lookupPair rest n

/-- Association-list insert, modelling a Go map write (replace if the key
is present, append otherwise). -/
def insertPair (l : List (Str × Str)) (n v : Str) : List (Str × Str) :=
  match l with
  | [] => [(n, v)]
  | (k, w) :: rest => if k = n then (n, v) :: rest else (k, w) :: insertPair rest n v

/-- The `ExecutorPool` struct (executor handles abstracted to their
names). -/
structure Pool where
  executors : List Str
  failed : List (Str × Str)
  dsns : List (Str × Str)
  names : List Str
deriving DecidableEq

/-- Outcome of one underlying `(*Executor).Execute` call: success, or an
error with the given message text. -/
inductive ExecOutcome where
  | ok
  | errText (e : Str)
deriving DecidableEq

/-- Error text of `Execute` when the connection name is empty and several
connections are configured. -/
def nameRequiredErr : Str :=
  str "connection name is required when multiple databases are configured; use list_connections to see names"

/-- Error text of `Execute` for a name in the failed map. -/
def unavailableErr (n : Str) : Str :=
  str "connection \"" ++ n ++ str "\" is currently unavailable (connection failed); call list_connections to retry"

/-- Error text of `Execute` for a name that is not configured. -/
def unknownErr (n : Str) : Str :=
  str "unknown connection \"" ++ n ++ str "\"; use list_connections to see configured names"

/-- Go `isConnectionError`: the lowercased error text contains one of the
connection-class signatures. -/
def connectionErrorSignatures : List Str :=
  [str "ora-12541", str "ora-12514", str "ora-12154", str "ora-12170",
   str "ora-03113", str "ora-01012", str "ora-12560", str "tns:",
   str "no listener", str "connection closed", str "connection reset",
   str "broken pipe", str "i/o timeout", str "driver: bad connection"]

/-- Go `(*ExecutorPool).isConnectionError` for a non-nil error with the
given text. -/
def isConnectionError (e : Str) : Bool :=
  connectionErrorSignatures.any (fun sub => hasSubstr (lowerStr e) sub)

/-- Deletion of a key from the executors map (`delete(p.executors, name)`):
remove the name from the key list. -/
def removeName : List Str → Str → List Str
  | [], _ => []
  | x :: rest, n => if x = n then rest else x :: removeName rest n

/-- Go `markConnectionFailed`: if the name still has a live handle, close
it, remove it from the executors map and record the name with its stored
DSN in the failed map. -/
def markConnectionFailed (p : Pool) (name : Str) : Pool :=
  if name ∈ p.executors then
    { p with
      executors := removeName p.executors name
      failed :=
        match lookupPair p.dsns name with
        | some dsn => insertPair p.failed name dsn
        | none => p.failed }
  else p

/-- Name resolution at the top of Go `Execute`: an empty name defaults to
the single configured connection when exactly one exists. -/
def resolveName (p : Pool) (connectionName : Str) : Str :=
  if connectionName = [] then
    (if p.names.length = 1 then p.names.headD [] else [])
  else connectionName

/-- Go `(*ExecutorPool).Execute`: resolve an empty name to the single
configured connection, look the name up among live handles and failed
entries, run the SQL, and demote the connection if the execution error is
connection-class.  The `run` parameter is the underlying executor. -/
def poolExecute (p : Pool) (connectionName : Str) (run : Str → ExecOutcome) :
    Pool × Except Str Unit :=
  let name := resolveName p connectionName
  if name = [] then (p, .error nameRequiredErr)
  else if name ∈ p.executors then
    match run name with
    | .ok => (p, .ok ())
    | .errText e =>
      (if isConnectionError e then markConnectionFailed p name else p, .error e)
  else if name ∈ p.failed.map Prod.fst then
    (p, .error (unavailableErr name))
  else
    (p, .error (unknownErr name))

/-- Go `RetryFailed`: try to reconnect every failed entry; recovered names
move to the executors map, the rest stay failed.  `connect` says whether
`NewExecutor` succeeds on a DSN. -/
def retryFailed (connect : Str → Bool) (p : Pool) : Pool :=
  { p with
    executors := p.executors ++ (p.failed.filter (fun nd => connect nd.2)).map Prod.fst
    failed := p.failed.filter (fun nd => !connect nd.2) }

/-- Go `ListConnectionsWithStatus`: retry all failed connections, then
report every configured name with its availability. -/
def listConnectionsWithStatus (connect : Str → Bool) (p : Pool) :
    Pool × List (Str × Bool) :=
  let p2 := retryFailed connect p
  (p2, p2.names.map (fun n => (n, decide (n ∈ p2.executors))))

/-- Go `NewExecutorPool`: requires at least one connection; every
configured name is recorded in `names` and `dsns`; names whose initial
connection succeeds go to `executors`, the rest to `failed`. -/
def newExecutorPool (connections : List (Str × Str)) (connect : Str → Bool) :
    Option Pool :=
  if connections = [] then none
  else some
    { executors := (connections.filter (fun nd => connect nd.2)).map Prod.fst
      failed := connections.filter (fun nd => !connect nd.2)
      dsns := connections
      names := connections.map Prod.fst }

/-- Well-formedness of a pool state: the configured names are exactly the
live names together with the failed names, with no name in both (and no
duplicates), and every configured name has a stored DSN. -/
def Pool.WF (p : Pool) : Prop :=
  (p.executors ++ p.failed.map Prod.fst).Nodup ∧
  p.names.Perm (p.executors ++ p.failed.map Prod.fst) ∧
  ∀ n ∈ p.names, (lookupPair p.dsns n).isSome

instance (p : Pool) : Decidable p.WF := by
  unfold Pool.WF
  infer_instance

/-! ### internal/confirm (Windows implementation)

`(*Confirmer).Confirm` writes three temp files, runs the PowerShell dialog
subprocess, and reads the result file.  The environment is abstracted:
whether each temp-file write succeeds, whether the subprocess run returns
without error, and the bytes read back from the result file (after the
read-retry loop), `none` standing for an unreadable or still-missing
file. -/

/-- Abstraction of the filesystem/subprocess environment seen by the
Windows `Confirm`. -/
structure WinEnv where
  writeHtmlOk : Bool
  writeHeaderOk : Bool
  writeScriptOk : Bool
  runOk : Bool
  resultData : Option Str
deriving DecidableEq

/-- Strip a UTF-8 byte-order mark (`bytes.TrimPrefix(data, BOM)`). -/
def stripBOM (data : Str) : Str :=
  match data with
  | 239 :: 187 :: 191 :: rest => rest
  | _ => data

/-- Go Windows `(*Confirmer).Confirm`, returning the Go `(bool, error)`
pair: an error only for temp-file write failures; a subprocess failure or
an unreadable/empty result file yields `(false, nil)`; otherwise approval
iff the trimmed, BOM-stripped result file content equals "1". -/
def winConfirm (env : WinEnv) : Bool × Option Str :=
  if !env.writeHtmlOk then (false, some (str "confirm: cannot write HTML temp file"))
  else if !env.writeHeaderOk then (false, some (str "confirm: cannot write header temp file"))
  else if !env.writeScriptOk then (false, some (str "confirm: cannot write script temp file"))
  else if !env.runOk then (false, none)
  else
    match env.resultData with
    | none => (false, none)
    | some data =>
      if data = [] then (false, none)
      else (trimSpace (stripBOM data) = str "1", none)

/-- Outcome of the confirmation collaborator as seen by the server:
either an error, or an approve/reject answer. -/
inductive ConfirmOutcome where
  | err (e : Str)
  | answer (approved : Bool)
deriving DecidableEq

/-- Repackage the Go `(bool, error)` pair: a non-nil error dominates. -/
def outcomeOfPair (p : Bool × Option Str) : ConfirmOutcome :=
  match p.2 with
  | some e => .err e
  | none => .answer p.1

/-! ### internal/mcp/server.go — handleExecuteSQL

The orchestration around one `execute_sql` tool call, with auditing
enabled.  The outcome of the confirmation collaborator and of the
underlying executors are parameters.  Wire-level argument decoding, the
verbose debug log and JSON formatting of results are not modelled. -/

/-- One audit record, as the argument tuple the server passes to
`(*Auditor).Log`. -/
structure AuditRecord where
  sql : Str
  keywords : List Str
  approved : Bool
  action : Str
  connection : Str
deriving DecidableEq

/-- The four distinct responses `handleExecuteSQL` can produce: the
"Confirmation dialog error" tool error, the USER_REJECTED JSON-RPC error
(carrying the matched keywords), the "SQL execution failed" tool error,
and the successful tool result. -/
inductive ExecResponse where
  | confirmDialogError (e : Str)
  | userRejectedResp (keywords : List Str)
  | executionFailedResp (e : Str)
  | successResp
deriving DecidableEq

/-- The execution-and-audit tail of `handleExecuteSQL` (everything after
the confirmation gate has been passed). -/
def execPhase (p : Pool) (run : Str → ExecOutcome) (sql : Str)
    (matched : List Str) (connectionName displayConnection : Str) :
    Pool × ExecResponse × List AuditRecord :=
  match poolExecute p connectionName run with
  | (p2, .error e) =>
    (p2, .executionFailedResp e,
     [{ sql := sql, keywords := matched, approved := false,
        action := str "EXECUTION_ERROR: " ++ e, connection := displayConnection }])
  | (p2, .ok _) =>
    (p2, .successResp,
     [{ sql := sql, keywords := matched, approved := true,
        action := str "SUCCESS", connection := displayConnection }])

/-- Go `handleExecuteSQL`: trim the connection argument, compute the
display connection, analyze the SQL, consult the confirmation gate when
the SQL is dangerous or (with the require-confirm-for-DDL flag) DDL, and
then execute and audit.  Returns the updated pool, the response, and the
audit records written during the call (in order). -/
def handleExecuteSQL (requireConfirmForDDL : Bool) (a : Analyzer) (p : Pool)
    (confirm : ConfirmOutcome) (run : Str → ExecOutcome)
    (sql connArg : Str) : Pool × ExecResponse × List AuditRecord :=
  let connectionName := trimSpace connArg
  let displayConnection :=
    if connectionName = [] ∧ p.names.length = 1 then p.names.headD []
    else connectionName
  let analysis := analyze a sql
  let needsConfirmation := analysis.isDangerous || (requireConfirmForDDL && analysis.isDDL)
  if needsConfirmation then
    match confirm with
    | .err e =>
      (p, .confirmDialogError e,
       [{ sql := sql, keywords := analysis.matchedKeywords, approved := false,
          action := str "CONFIRM_ERROR: " ++ e, connection := displayConnection }])
    | .answer false =>
      (p, .userRejectedResp analysis.matchedKeywords,
       [{ sql := sql, keywords := analysis.matchedKeywords, approved := false,
          action := str "USER_REJECTED", connection := displayConnection }])
    | .answer true =>
      execPhase p run sql analysis.matchedKeywords connectionName displayConnection
  else
    execPhase p run sql analysis.matchedKeywords connectionName displayConnection

/-! ### internal/audit — Auditor.Log and rotation

The auditor's file system is abstracted to: an optional currently-open
file (identified by a number), the contents written to each file this
session, and the running byte counter.  Whether opening a fresh rotation
file succeeds is a parameter, as is the timestamp. -/

/-- The 10MB per-file cap (`maxAuditLogBytes = 10 << 20`). -/
def maxAuditLogBytes : Nat := 10485760

/-- Abstraction of the `Auditor` struct state: `file` is the currently
open file (none once closed), `files` maps each file id to the bytes
written to it this session, `currentSize` is the running byte counter. -/
structure AuditorState where
  file : Option Nat
  files : List (Nat × Str)
  currentSize : Nat
deriving DecidableEq

/-- Go `rotateOpen`: close the current file first (setting it to nil),
then open a fresh timestamped file.  On open failure the error is
returned with the current file already closed. -/
def rotateOpen (openOk : Bool) (newId : Nat) (st : AuditorState) :
    AuditorState × Bool :=
  if openOk then
    ({ file := some newId, files := st.files ++ [(newId, [])], currentSize := 0 }, true)
  else
    ({ st with file := none }, false)

/-- A write on the auditor's file handle: appends to the open file; on a
nil handle (`none`) Go's `(*os.File).WriteString` returns `ErrInvalid`,
which `Log` ignores, so nothing is written anywhere. -/
def auditWrite (st : AuditorState) (s : Str) : AuditorState :=
  match st.file with
  | none => st
  | some id =>
    { st with files := st.files.map (fun f => if f.1 = id then (f.1, f.2 ++ s) else f) }

/-- Go `strings.Join(keywords, ",")` with the "none" sentinel. -/
def joinKeywords (kws : List Str) : Str :=
  match kws with
  | [] => str "none"
  | k :: rest => rest.foldl (fun acc x => acc ++ str "," ++ x) k

/-- Go `%v` of a bool. -/
def boolStr (b : Bool) : Str := if b then str "true" else str "false"

/-- The audit entry text built by `(*Auditor).Log`: a fixed header block,
the full SQL (newline-terminated), and the end-of-record sentinel line. -/
def buildEntry (timestamp sql : Str) (matchedKeywords : List Str)
    (approved : Bool) (action connection : Str) : Str :=
  let keywords := joinKeywords matchedKeywords
  let conn := if connection = [] then str "default" else connection
  let header :=
    str "AUDIT_TIME=" ++ timestamp ++ str "\nAUDIT_CONNECTION=" ++ conn ++
    str "\nAUDIT_KEYWORDS=" ++ keywords ++ str "\nAUDIT_APPROVED=" ++ boolStr approved ++
    str "\nAUDIT_ACTION=" ++ action ++ str "\nAUDIT_SQL=\n"
  let body := header ++ sql
  let body := if sql.getLast? = some 10 then body else body ++ str "\n"
  body ++ str "######AUDIT_END######\n"

/-- Go `(*Auditor).Log`: build the entry, and when appending it would
reach or exceed the cap on a non-empty file, rotate first; on rotation
failure, write anyway to the (already closed) current handle; finally
append and bump the byte counter. -/
def auditorLog (openOk : Bool) (newId : Nat) (timestamp : Str)
    (sql : Str) (matchedKeywords : List Str) (approved : Bool)
    (action connection : Str) (st : AuditorState) : AuditorState :=
  let entry := buildEntry timestamp sql matchedKeywords approved action connection
  let size := entry.length
  if st.currentSize + size ≥ maxAuditLogBytes ∧ st.currentSize > 0 then
    let (st2, _) := rotateOpen openOk newId st
    let st3 := auditWrite st2 entry
    { st3 with currentSize := st3.currentSize + size }
  else
    let st3 := auditWrite st entry
    { st3 with currentSize := st3.currentSize + size }

/-! ### Concrete fixtures used by counterexamples and witnesses -/

/-- A pool with two healthy configured connections. -/
def poolTwo : Pool :=
  { executors := [str "db1", str "db2"]
    failed := []
    dsns := [(str "db1", str "dsn1"), (str "db2", str "dsn2")]
    names := [str "db1", str "db2"] }

/-- A pool with a single healthy configured connection. -/
def poolOne : Pool :=
  { executors := [str "db1"]
    failed := []
    dsns := [(str "db1", str "dsn1")]
    names := [str "db1"] }

/-- A confirmation environment in which all temp-file writes succeed but
the dialog subprocess crashes. -/
def crashEnv : WinEnv :=
  { writeHtmlOk := true, writeHeaderOk := true, writeScriptOk := true,
    runOk := false, resultData := none }

/-! ## Helper lemmas -/

theorem removeStringLiteralsAux_length (l : Str) :
    ∀ (b : Bool) (prev : Nat), (removeStringLiteralsAux b prev l).length = l.length := by
  induction l with
  | nil => intro b prev; rfl
  | cons c rest ih =>
    intro b prev
    simp only [removeStringLiteralsAux]
    split
    · simp [ih]
    · split <;> simp [ih]

theorem hasPair_cons_false {a b x : Nat} {l : List Nat}
    (h : hasPair a b (x :: l) = false) :
    ¬(x = a ∧ l.head? = some b) ∧ hasPair a b l = false := by
  cases l with
  | nil => simp [hasPair]
  | cons y rest =>
    simp only [hasPair, Bool.or_eq_false_iff, Bool.and_eq_false_iff] at h
    refine ⟨?_, h.2⟩
    rintro ⟨rfl, hy⟩
    simp only [List.head?_cons, Option.some.injEq] at hy
    rcases h.1 with h1 | h1 <;> simp [hy] at h1

theorem hasPair_cons_of_ne {a b x : Nat} {l : List Nat}
    (hx : x ≠ a) (h : hasPair a b l = false) : hasPair a b (x :: l) = false := by
  cases l with
  | nil => rfl
  | cons y rest => simp [hasPair, hx, h]

theorem rlcAux_id {l : Str} (h : hasPair 45 45 l = false) : rlcAux false l = l := by
  induction l with
  | nil => rfl
  | cons c1 rest ih =>
    obtain ⟨hhd, htl⟩ := hasPair_cons_false h
    cases rest with
    | nil => rfl
    | cons c2 rest2 =>
      have hc : ¬(c1 == 45 && c2 == 45) = true := by
        intro hb
        simp only [Bool.and_eq_true, beq_iff_eq] at hb
        exact hhd ⟨hb.1, by simp [hb.2]⟩
      simp only [rlcAux]
      rw [if_neg hc, ih htl]

theorem rbcAux_id {l : Str} (h : hasPair 47 42 l = false) : rbcAux false l = l := by
  induction l with
  | nil => rfl
  | cons c1 rest ih =>
    obtain ⟨hhd, htl⟩ := hasPair_cons_false h
    cases rest with
    | nil => rfl
    | cons c2 rest2 =>
      have hc : ¬(c1 == 47 && c2 == 42) = true := by
        intro hb
        simp only [Bool.and_eq_true, beq_iff_eq] at hb
        exact hhd ⟨hb.1, by simp [hb.2]⟩
      simp only [rbcAux]
      rw [if_neg hc]
      rw [ih htl]

theorem removeComments_id {l : Str} (h45 : hasPair 45 45 l = false)
    (h47 : hasPair 47 42 l = false) : removeComments l = l := by
  unfold removeComments removeLineComments removeBlockComments
  rw [rlcAux_id h45, rbcAux_id h47]

/-- Lexer state corresponding to the scanner's `inString` flag. -/
def stateOf : Bool → SpecState
  | false => .code
  | true => .instring

theorem specStringMask_instring_quote {rest : Str} (hrest : ¬ rest.head? = some 39) :
    specStringMask .instring (39 :: rest) = true :: specStringMask .code rest := by
  cases rest with
  | nil => rfl
  | cons c2 rest2 =>
    have hc2 : ¬ c2 = 39 := by
      intro h
      exact hrest (by simp [h])
    simp [specStringMask, hc2]

theorem specStringMask_instring_other {c : Nat} {rest : Str} (hc : ¬ c = 39) :
    specStringMask .instring (c :: rest) = true :: specStringMask .instring rest := by
  cases rest with
  | nil => simp [specStringMask, hc]
  | cons c2 rest2 => simp [specStringMask, hc]

theorem removeStringLiteralsAux_spec (l : Str) :
    ∀ (b : Bool) (prev : Nat),
      hasPair 39 39 (prev :: l) = false →
      hasPair 45 45 l = false → hasPair 47 42 l = false →
      removeStringLiteralsAux b prev l =
        List.zipWith (fun m c => if m then 32 else c)
          (specStringMask (stateOf b) l) l := by
  induction l with
  | nil => intro b prev _ _ _; cases b <;> rfl
  | cons c rest ih =>
    intro b prev h39 h45 h47
    obtain ⟨hp, h39x⟩ := hasPair_cons_false h39
    obtain ⟨hc45, h45x⟩ := hasPair_cons_false h45
    obtain ⟨hc47, h47x⟩ := hasPair_cons_false h47
    by_cases hc : c = 39
    · subst hc
      have hprev : prev ≠ 39 := fun hp39 => hp ⟨hp39, by simp⟩
      have hcond : (39 == 39 && prev != 39) = true := by
        simp [bne_iff_ne, hprev]
      obtain ⟨hq, h39y⟩ := hasPair_cons_false h39x
      have hrest : ¬(rest.head? = some 39) := fun h => hq ⟨rfl, h⟩
      cases b
      · simp [stateOf, removeStringLiteralsAux, specStringMask, hcond, hrest, hprev,
          List.zipWith_cons_cons, ih true 39 h39x h45x h47x]
      · simp [stateOf, removeStringLiteralsAux, specStringMask_instring_quote hrest, hcond,
          hprev, List.zipWith_cons_cons, ih false 39 h39x h45x h47x]
    · have hcond : ¬(c == 39 && prev != 39) = true := by
        simp [hc]
      cases b
      · simp [stateOf, removeStringLiteralsAux, specStringMask, hcond, hc, hc45, hc47,
          List.zipWith_cons_cons, ih false c h39x h45x h47x]
      · simp [stateOf, removeStringLiteralsAux, specStringMask_instring_other hc, hcond, hc,
          List.zipWith_cons_cons, ih true c h39x h45x h47x]

theorem removeStringLiterals_eq_specBlank {l : Str}
    (h39 : hasPair 39 39 l = false) (h45 : hasPair 45 45 l = false)
    (h47 : hasPair 47 42 l = false) :
    removeStringLiterals l = specBlank l := by
  unfold removeStringLiterals specBlank
  have h0 : hasPair 39 39 (0 :: l) = false :=
    hasPair_cons_of_ne (by decide) h39
  have := removeStringLiteralsAux_spec l false 0 h0 h45 h47
  simpa [stateOf] using this

theorem isPrefixOf_iff_ex (p : Str) : ∀ l : Str, p.isPrefixOf l = true ↔ ∃ u, l = p ++ u := by
  induction p with
  | nil =>
    intro l
    simp [List.isPrefixOf]
  | cons a as ih =>
    intro l
    cases l with
    | nil => simp [List.isPrefixOf]
    | cons b bs =>
      simp only [List.isPrefixOf, Bool.and_eq_true, beq_iff_eq, ih bs, List.cons_append]
      constructor
      · rintro ⟨rfl, u, rfl⟩
        exact ⟨u, rfl⟩
      · rintro ⟨u, hu⟩
        rw [List.cons_eq_cons] at hu
        exact ⟨hu.1.symm, u, hu.2⟩

theorem hasSubstr_iff (pat : Str) : ∀ l : Str, hasSubstr l pat = true ↔ ∃ s u, l = s ++ pat ++ u := by
  intro l
  induction l with
  | nil =>
    simp only [hasSubstr, Bool.or_eq_true, isPrefixOf_iff_ex]
    constructor
    · rintro (⟨u, hu⟩ | h)
      · exact ⟨[], u, by simpa using hu⟩
      · exact absurd h (by simp)
    · rintro ⟨s, u, hsu⟩
      rcases List.append_eq_nil.mp hsu.symm with ⟨hsp, hu⟩
      rcases List.append_eq_nil.mp hsp with ⟨hs, hpat⟩
      exact Or.inl ⟨[], by simp [hpat]⟩
    | cons c rest ih =>
    simp only [hasSubstr, Bool.or_eq_true, isPrefixOf_iff_ex, ih]
    constructor
    · rintro (⟨u, hu⟩ | ⟨s, u, hsu⟩)
      · exact ⟨[], u, by simpa using hu⟩
      · exact ⟨c :: s, u, by simp [hsu]⟩
    · rintro ⟨s, u, hsu⟩
      cases s with
      | nil => exact Or.inl ⟨u, by simpa using hsu⟩
      | cons x xs =>
        rw [List.cons_append, List.cons_append, List.cons_eq_cons] at hsu
        exact Or.inr ⟨xs, u, by simp [hsu.2]⟩

theorem tokenizeAux_mem (m : Str) :
    ∀ (acc t : Str), (∀ c ∈ acc, isIdentRune c = true) → t ∈ tokenizeAux acc m →
      t ≠ [] ∧ (∀ c ∈ t, isIdentRune c = true) ∧ ∃ s u, acc.reverse ++ m = s ++ t ++ u := by
  induction m with
  | nil =>
    intro acc t hacc ht
    simp only [tokenizeAux] at ht
    by_cases he : acc.isEmpty
    · simp [he] at ht
    · rw [if_neg he] at ht
      simp only [List.mem_singleton] at ht
      subst ht
      refine ⟨?_, ?_, [], [], by simp⟩
      · intro h
        rw [List.isEmpty_iff] at he
        exact he (by simpa using congrArg List.reverse h)
      · intro c hcm
        exact hacc c (by simpa using hcm)
  | cons c m2 ih =>
    intro acc t hacc ht
    simp only [tokenizeAux] at ht
    by_cases hid : isIdentRune c = true
    · rw [if_pos hid] at ht
      have hacc2 : ∀ x ∈ (c :: acc), isIdentRune x = true := by
        intro x hx
        rcases List.mem_cons.mp hx with rfl | hx
        · exact hid
        · exact hacc x hx
      obtain ⟨h1, h2, s, u, hdec⟩ := ih (c :: acc) t hacc2 ht
      refine ⟨h1, h2, s, u, ?_⟩
      simpa using hdec
    · rw [if_neg hid] at ht
      by_cases he : acc.isEmpty
      · rw [if_pos he] at ht
        obtain ⟨h1, h2, s, u, hdec⟩ := ih [] t (by simp) ht
        refine ⟨h1, h2, c :: s, u, ?_⟩
        rw [List.isEmpty_iff] at he
        simp only [he, List.reverse_nil, List.nil_append] at hdec ⊢
        simp [hdec]
      · rw [if_neg he] at ht
        rcases List.mem_cons.mp ht with rfl | ht
        · refine ⟨?_, ?_, [], c :: m2, by simp⟩
          · intro h
            rw [List.isEmpty_iff] at he
            exact he (by simpa using congrArg List.reverse h)
          · intro x hx
            exact hacc x (by simpa using hx)
        · obtain ⟨h1, h2, s, u, hdec⟩ := ih [] t (by simp) ht
          refine ⟨h1, h2, acc.reverse ++ (c :: s), u, ?_⟩
          simp only [List.reverse_nil, List.nil_append] at hdec
          simp [hdec]

theorem tokenize_mem {l t : Str} (ht : t ∈ tokenize l) :
    t ≠ [] ∧ (∀ c ∈ t, isIdentRune c = true) ∧ hasSubstr (lowerStr l) t = true := by
  obtain ⟨h1, h2, s, u, hdec⟩ := tokenizeAux_mem (lowerStr l) [] t (by simp) ht
  refine ⟨h1, h2, ?_⟩
  rw [hasSubstr_iff]
  exact ⟨s, u, by simpa using hdec⟩

theorem tokenizeAux_all_ident (m : Str) :
    ∀ acc : Str, m ≠ [] → (∀ c ∈ m, isIdentRune c = true) →
      tokenizeAux acc m = [acc.reverse ++ m] := by
  induction m with
  | nil => intro acc h _; exact absurd rfl h
  | cons c m2 ih =>
    intro acc _ hall
    have hid : isIdentRune c = true := hall c (by simp)
    simp only [tokenizeAux, if_pos hid]
    by_cases hm2 : m2 = []
    · subst hm2
      simp [tokenizeAux]
    · rw [ih (c :: acc) hm2 (fun x hx => hall x (by simp [hx]))]
      simp

theorem tokenize_single {k : Str} (hk : k ≠ [])
    (hident : ∀ c ∈ k, isIdentRune c = true) (hlower : ∀ c ∈ k, toLowerRune c = c) :
    tokenize k = [k] := by
  unfold tokenize
  have hmap : lowerStr k = k := by
    unfold lowerStr
    rw [List.map_congr_left (fun c hc => hlower c hc)]
    exact List.map_id k
  rw [hmap, tokenizeAux_all_ident k [] hk hident]
  simp

theorem matchTokensAux_single {tokens : List Str} {kw k0 : Str}
    (htok : tokenize kw = [k0]) :
    ∀ (kws seen : List Str), kw ∈ matchKeywordsTokensAux tokens seen kws → k0 ∈ tokens := by
  intro kws
  induction kws with
  | nil => intro seen h; simp [matchKeywordsTokensAux] at h
  | cons kw2 rest ih =>
    intro seen h
    simp only [matchKeywordsTokensAux] at h
    by_cases hseen : kw2 ∈ seen
    · rw [if_pos hseen] at h
      exact ih seen h
    · rw [if_neg hseen] at h
      rcases htok2 : tokenize kw2 with _ | ⟨t0, ts⟩
      · rw [htok2] at h
        exact ih seen h
      · rcases ts with _ | ⟨t1, ts2⟩
        · rw [htok2] at h
          dsimp only at h
          by_cases hc : tokens.contains t0 = true
          · rw [if_pos hc] at h
            rcases List.mem_cons.mp h with rfl | h
            · rw [htok2] at htok
              have : t0 = k0 := by simpa using htok
              subst this
              simpa using hc
            · exact ih (kw2 :: seen) h
          · rw [if_neg hc] at h
            exact ih seen h
        · rw [htok2] at h
          dsimp only at h
          by_cases hc : matchConsecutiveTokens tokens (t0 :: t1 :: ts2) = true
          · rw [if_pos hc] at h
            rcases List.mem_cons.mp h with rfl | h
            · rw [htok2] at htok
              simp at htok
            · exact ih (kw2 :: seen) h
          · rw [if_neg hc] at h
            exact ih seen h

theorem matchTokensAux_sublist (tokens : List Str) :
    ∀ (kws seen : List Str), List.Sublist (matchKeywordsTokensAux tokens seen kws) kws := by
  intro kws
  induction kws with
  | nil => intro seen; simp [matchKeywordsTokensAux]
  | cons kw rest ih =>
    intro seen
    simp only [matchKeywordsTokensAux]
    by_cases hseen : kw ∈ seen
    · rw [if_pos hseen]
      exact (ih seen).cons kw
    · rw [if_neg hseen]
      rcases htok : tokenize kw with _ | ⟨t0, ts⟩
      · exact (ih seen).cons kw
      · rcases ts with _ | ⟨t1, ts2⟩
        · dsimp only
          by_cases hc : tokens.contains t0 = true
          · rw [if_pos hc]
            exact (ih (kw :: seen)).cons₂ kw
          · rw [if_neg hc]
            exact (ih seen).cons kw
        · dsimp only
          by_cases hc : matchConsecutiveTokens tokens (t0 :: t1 :: ts2) = true
          · rw [if_pos hc]
            exact (ih (kw :: seen)).cons₂ kw
          · rw [if_neg hc]
            exact (ih seen).cons kw

theorem matchTokensAux_fresh (tokens : List Str) :
    ∀ (kws seen : List Str) (x : Str), x ∈ matchKeywordsTokensAux tokens seen kws → x ∉ seen := by
  intro kws
  induction kws with
  | nil => intro seen x h; simp [matchKeywordsTokensAux] at h
  | cons kw rest ih =>
    intro seen x h
    simp only [matchKeywordsTokensAux] at h
    by_cases hseen : kw ∈ seen
    · rw [if_pos hseen] at h
      exact ih seen x h
    · rw [if_neg hseen] at h
      rcases htok : tokenize kw with _ | ⟨t0, ts⟩
      · rw [htok] at h
        exact ih seen x h
      · rcases ts with _ | ⟨t1, ts2⟩
        · rw [htok] at h
          dsimp only at h
          by_cases hc : tokens.contains t0 = true
          · rw [if_pos hc] at h
            rcases List.mem_cons.mp h with rfl | h
            · exact hseen
            · have := ih (kw :: seen) x h
              exact fun hx => this (List.mem_cons_of_mem kw hx)
          · rw [if_neg hc] at h
            exact ih seen x h
        · rw [htok] at h
          dsimp only at h
          by_cases hc : matchConsecutiveTokens tokens (t0 :: t1 :: ts2) = true
          · rw [if_pos hc] at h
            rcases List.mem_cons.mp h with rfl | h
            · exact hseen
            · have := ih (kw :: seen) x h
              exact fun hx => this (List.mem_cons_of_mem kw hx)
          · rw [if_neg hc] at h
            exact ih seen x h

theorem matchTokensAux_nodup (tokens : List Str) :
    ∀ (kws seen : List Str), (matchKeywordsTokensAux tokens seen kws).Nodup := by
  intro kws
  induction kws with
  | nil => intro seen; simp [matchKeywordsTokensAux]
  | cons kw rest ih =>
    intro seen
    simp only [matchKeywordsTokensAux]
    by_cases hseen : kw ∈ seen
    · rw [if_pos hseen]
      exact ih seen
    · rw [if_neg hseen]
      rcases htok : tokenize kw with _ | ⟨t0, ts⟩
      · exact ih seen
      · rcases ts with _ | ⟨t1, ts2⟩
        · dsimp only
          by_cases hc : tokens.contains t0 = true
          · rw [if_pos hc]
            rw [List.nodup_cons]
            refine ⟨?_, ih (kw :: seen)⟩
            intro hmem
            exact matchTokensAux_fresh tokens rest (kw :: seen) kw hmem (by simp)
          · rw [if_neg hc]
            exact ih seen
        · dsimp only
          by_cases hc : matchConsecutiveTokens tokens (t0 :: t1 :: ts2) = true
          · rw [if_pos hc]
            rw [List.nodup_cons]
            refine ⟨?_, ih (kw :: seen)⟩
            intro hmem
            exact matchTokensAux_fresh tokens rest (kw :: seen) kw hmem (by simp)
          · rw [if_neg hc]
            exact ih seen

theorem matchTokensAux_nil_not_mem (tokens : List Str) :
    ∀ (kws seen : List Str), [] ∉ matchKeywordsTokensAux tokens seen kws := by
  intro kws
  induction kws with
  | nil => intro seen; simp [matchKeywordsTokensAux]
  | cons kw rest ih =>
    intro seen
    simp only [matchKeywordsTokensAux]
    by_cases hseen : kw ∈ seen
    · rw [if_pos hseen]
      exact ih seen
    · rw [if_neg hseen]
      rcases htok : tokenize kw with _ | ⟨t0, ts⟩
      · exact ih seen
      · rcases ts with _ | ⟨t1, ts2⟩
        · dsimp only
          by_cases hc : tokens.contains t0 = true
          · rw [if_pos hc]
            intro hmem
            rcases List.mem_cons.mp hmem with heq | hmem2
            · rw [← heq] at htok
              simp [tokenize, tokenizeAux, lowerStr] at htok
            · exact ih (kw :: seen) hmem2
          · rw [if_neg hc]
            exact ih seen
        · dsimp only
          by_cases hc : matchConsecutiveTokens tokens (t0 :: t1 :: ts2) = true
          · rw [if_pos hc]
            intro hmem
            rcases List.mem_cons.mp hmem with heq | hmem2
            · rw [← heq] at htok
              simp [tokenize, tokenizeAux, lowerStr] at htok
            · exact ih (kw :: seen) hmem2
          · rw [if_neg hc]
            exact ih seen

theorem hasSubstr_nil_pat (l : Str) : hasSubstr l [] = true := by
  cases l <;> simp [hasSubstr, List.isPrefixOf]

/-! ## Claim C1 -/

/-- Claim C1 as frozen is false on the code: in the SQL
`SELECT 'it''s drop' FROM dual` the keyword `drop` occurs (conjunct 1) and
occurs only inside a single-quoted string literal containing an `''`
escaped quote (conjunct 2: blanking the literals per the reference lexer
removes every occurrence), yet Tokens-mode classification is dangerous
with `drop` matched (conjuncts 3 and 4): `removeStringLiterals` mishandles
the escaped quote and leaks the tail of the literal into the token
stream. -/
theorem C1_counterexample :
    hasSubstr (lowerStr (str "SELECT 'it''s drop' FROM dual")) (str "drop") = true ∧
    hasSubstr (lowerStr (specBlank (str "SELECT 'it''s drop' FROM dual"))) (str "drop") = false ∧
    (analyze (newAnalyzer [str "drop"] (str "tokens"))
      (str "SELECT 'it''s drop' FROM dual")).isDangerous = true ∧
    str "drop" ∈ (analyze (newAnalyzer [str "drop"] (str "tokens"))
      (str "SELECT 'it''s drop' FROM dual")).matchedKeywords := by
  decide

/-- Claim C1 (amended): for SQL texts containing no comment markers and no
adjacent quote pair, and for a single-word keyword `k` (nonempty, lowercase
identifier runes) that occurs in the text but only inside single-quoted
string literals (blanking the literals per the reference lexer removes
every case-insensitive occurrence), Tokens-mode classification never
reports `k` (and with `k` as the only configured keyword it is not
dangerous), while WholeText-mode classification reports `k` and is
dangerous. -/
theorem C1_token_mode_safety (kws : List Str) (k sql : Str)
    (hk0 : k ≠ [])
    (hk1 : ∀ c ∈ k, isIdentRune c = true)
    (hk2 : ∀ c ∈ k, toLowerRune c = c)
    (h45 : hasPair 45 45 sql = false) (h47 : hasPair 47 42 sql = false)
    (h39 : hasPair 39 39 sql = false)
    (hocc : hasSubstr (lowerStr sql) k = true)
    (hlit : hasSubstr (lowerStr (specBlank sql)) k = false) :
    k ∉ (analyze { dangerKeywords := kws, matchMode := .tokens } sql).matchedKeywords ∧
    (analyze { dangerKeywords := [k], matchMode := .tokens } sql).isDangerous = false ∧
    (k ∈ kws →
      k ∈ (analyze { dangerKeywords := kws, matchMode := .wholeText } sql).matchedKeywords ∧
      (analyze { dangerKeywords := kws, matchMode := .wholeText } sql).isDangerous = true) := by
  have htok : tokenize k = [k] := tokenize_single hk0 hk1 hk2
  have hnorm : removeStringLiterals (removeComments sql) = specBlank sql := by
    rw [removeComments_id h45 h47]
    exact removeStringLiterals_eq_specBlank h39 h45 h47
  have hknot : k ∉ tokenize (specBlank sql) := by
    intro hmem
    obtain ⟨_, _, hsub⟩ := tokenize_mem hmem
    rw [hlit] at hsub
    cases hsub
  have hcont : ¬ ((tokenize (specBlank sql)).contains k = true) := by
    simpa using hknot
  refine ⟨?_, ?_, ?_⟩
  · intro hmem
    have hmem2 : k ∈ matchKeywordsTokensAux
        (tokenize (removeStringLiterals (removeComments sql))) [] kws := by
      simpa [analyze, matchKeywordsTokens] using hmem
    rw [hnorm] at hmem2
    exact hknot (matchTokensAux_single htok kws [] hmem2)
  · have hres : matchKeywordsTokensAux (tokenize (specBlank sql)) [] [k] = [] := by
      simp only [matchKeywordsTokensAux]
      rw [if_neg (List.not_mem_nil k), htok]
      dsimp only
      rw [if_neg hcont]
    simp [analyze, matchKeywordsTokens, hnorm, hres]
  · intro hkmem
    have hfil : k ∈ matchKeywordsWholeText kws sql :=
      List.mem_filter.mpr ⟨hkmem, hocc⟩
    have hne : matchKeywordsWholeText kws sql ≠ [] := by
      intro h0
      rw [h0] at hfil
      cases hfil
    constructor
    · simpa [analyze] using hfil
    · simp only [analyze]
      rw [Bool.not_eq_eq_eq_not]
      simp [List.isEmpty_iff, hne]

/-- Witness for the amended claim C1 at the repository's own test input
`SELECT 'drop table' FROM dual` with keyword `drop`. -/
theorem C1_witness :
    str "drop" ∉ (analyze { dangerKeywords := [str "drop"], matchMode := .tokens }
      (str "SELECT 'drop table' FROM dual")).matchedKeywords ∧
    (analyze { dangerKeywords := [str "drop"], matchMode := .tokens }
      (str "SELECT 'drop table' FROM dual")).isDangerous = false ∧
    str "drop" ∈ (analyze { dangerKeywords := [str "drop"], matchMode := .wholeText }
      (str "SELECT 'drop table' FROM dual")).matchedKeywords ∧
    (analyze { dangerKeywords := [str "drop"], matchMode := .wholeText }
      (str "SELECT 'drop table' FROM dual")).isDangerous = true := by
  have h := C1_token_mode_safety [str "drop"] (str "drop")
    (str "SELECT 'drop table' FROM dual")
    (by decide) (by decide) (by decide) (by decide) (by decide) (by decide)
    (by decide) (by decide)
  exact ⟨h.1, h.2.1, (h.2.2 (by decide)).1, (h.2.2 (by decide)).2⟩

/-! ## Claim C4 -/

/-- Claim C4 as frozen is false on the code: comment stripping replaces a
whole comment by a single space rather than blanking it in place, so the
normalized text of `SELECT 1 -- this is a comment` is shorter than the
input. -/
theorem C4_counterexample :
    ¬ ((removeStringLiterals (removeComments (str "SELECT 1 -- this is a comment"))).length
        = (str "SELECT 1 -- this is a comment").length) := by
  decide

/-- Claim C4 (amended): the string-literal-stripping step preserves length
exactly on every input (character-by-character blanking), and the composed
comment-and-literal stripping preserves length for every input that
contains no comment markers (each comment is otherwise collapsed to a
single space). -/
theorem C4_stripping_length (l : Str) :
    (removeStringLiterals l).length = l.length ∧
    (hasPair 45 45 l = false → hasPair 47 42 l = false →
      (removeStringLiterals (removeComments l)).length = l.length) := by
  constructor
  · exact removeStringLiteralsAux_length l false 0
  · intro h45 h47
    rw [removeComments_id h45 h47]
    exact removeStringLiteralsAux_length l false 0

/-- Witness for the amended claim C4 at a comment-free input with an
embedded string literal. -/
theorem C4_witness :
    (removeStringLiterals (str "SELECT 'it is' FROM t")).length
      = (str "SELECT 'it is' FROM t").length ∧
    (removeStringLiterals (removeComments (str "SELECT 'it is' FROM t"))).length
      = (str "SELECT 'it is' FROM t").length :=
  ⟨(C4_stripping_length (str "SELECT 'it is' FROM t")).1,
   (C4_stripping_length (str "SELECT 'it is' FROM t")).2 (by decide) (by decide)⟩

/-! ## Claim C9 -/

/-- Claim C9 as frozen is false on the code: `matchKeywordsWholeText` does
not de-duplicate, so configuring the keyword `drop` twice yields `drop`
twice in `matchedKeywords` in WholeText mode. -/
theorem C9_counterexample :
    (analyze (newAnalyzer [str "drop", str "drop"] (str "whole_text"))
      (str "DROP TABLE t")).matchedKeywords = [str "drop", str "drop"] ∧
    ¬ (analyze (newAnalyzer [str "drop", str "drop"] (str "whole_text"))
      (str "DROP TABLE t")).matchedKeywords.Nodup := by
  decide

/-- Claim C9 (amended): in both policies `matchedKeywords` lists matching
configured phrases in configuration order (it is a sublist of the
configured list); in Tokens mode duplicates are always collapsed, while in
WholeText mode the result is duplicate-free only when the configured list
itself is. -/
theorem C9_order_dedup (kws : List Str) (sql : Str) :
    (List.Sublist (analyze { dangerKeywords := kws, matchMode := .tokens } sql).matchedKeywords kws ∧
     (analyze { dangerKeywords := kws, matchMode := .tokens } sql).matchedKeywords.Nodup) ∧
    (List.Sublist (analyze { dangerKeywords := kws, matchMode := .wholeText } sql).matchedKeywords kws ∧
     (kws.Nodup →
       (analyze { dangerKeywords := kws, matchMode := .wholeText } sql).matchedKeywords.Nodup)) := by
  refine ⟨⟨?_, ?_⟩, ?_, ?_⟩
  · simpa [analyze, matchKeywordsTokens] using
      matchTokensAux_sublist (tokenize (removeStringLiterals (removeComments sql))) kws []
  · simpa [analyze, matchKeywordsTokens] using
      matchTokensAux_nodup (tokenize (removeStringLiterals (removeComments sql))) kws []
  · have hs : List.Sublist (matchKeywordsWholeText kws sql) kws :=
      List.filter_sublist kws
    simpa [analyze] using hs
  · intro hnd
    have hs : List.Sublist (matchKeywordsWholeText kws sql) kws :=
      List.filter_sublist kws
    simpa [analyze] using hnd.sublist hs

/-- Witness for the amended claim C9 on a duplicate-free two-keyword
configuration. -/
theorem C9_witness :
    (List.Sublist (analyze { dangerKeywords := [str "drop", str "truncate"], matchMode := .tokens }
        (str "DROP TABLE t")).matchedKeywords [str "drop", str "truncate"] ∧
     (analyze { dangerKeywords := [str "drop", str "truncate"], matchMode := .tokens }
        (str "DROP TABLE t")).matchedKeywords.Nodup) ∧
    (List.Sublist (analyze { dangerKeywords := [str "drop", str "truncate"], matchMode := .wholeText }
        (str "DROP TABLE t")).matchedKeywords [str "drop", str "truncate"] ∧
     (analyze { dangerKeywords := [str "drop", str "truncate"], matchMode := .wholeText }
        (str "DROP TABLE t")).matchedKeywords.Nodup) := by
  have h := C9_order_dedup [str "drop", str "truncate"] (str "DROP TABLE t")
  exact ⟨h.1, h.2.1, h.2.2 (by decide)⟩

/-! ## Claim C10 -/

/-- Claim C10: a configured keyword that normalizes to the empty string
makes every input dangerous in WholeText mode (the empty phrase is in
`matchedKeywords`), while in Tokens mode a keyword with no tokens is
skipped and never matches. -/
theorem C10_empty_keyword (raw : List Str) (kw : Str) (sql : Str)
    (hmem : kw ∈ raw) (hempty : normalizeKeyword kw = []) :
    ([] ∈ (analyze (newAnalyzer raw (str "whole_text")) sql).matchedKeywords ∧
     (analyze (newAnalyzer raw (str "whole_text")) sql).isDangerous = true) ∧
    [] ∉ (analyze (newAnalyzer raw (str "tokens")) sql).matchedKeywords := by
  have hmode1 : parseMatchMode (str "whole_text") = .wholeText := rfl
  have hmode2 : parseMatchMode (str "tokens") = .tokens := rfl
  have hnil : ([] : Str) ∈ raw.map normalizeKeyword :=
    hempty ▸ List.mem_map_of_mem normalizeKeyword hmem
  have hfil : ([] : Str) ∈ matchKeywordsWholeText (raw.map normalizeKeyword) sql :=
    List.mem_filter.mpr ⟨hnil, hasSubstr_nil_pat (lowerStr sql)⟩
  refine ⟨⟨?_, ?_⟩, ?_⟩
  · simpa [analyze, newAnalyzer, hmode1] using hfil
  · have hne : matchKeywordsWholeText (raw.map normalizeKeyword) sql ≠ [] := by
      intro h0
      rw [h0] at hfil
      cases hfil
    simp only [analyze, newAnalyzer, hmode1]
    rw [Bool.not_eq_eq_eq_not]
    simp [List.isEmpty_iff, hne]
  · intro hmem2
    have : ([] : Str) ∈ matchKeywordsTokensAux
        (tokenize (removeStringLiterals (removeComments sql))) [] (raw.map normalizeKeyword) := by
      simpa [analyze, newAnalyzer, hmode2, matchKeywordsTokens] using hmem2
    exact matchTokensAux_nil_not_mem _ _ [] this

/-- Witness for claim C10: the keyword consisting of two spaces normalizes
to the empty string; with it configured, even the empty SQL text is
classified dangerous in WholeText mode, and Tokens mode never matches
it. -/
theorem C10_witness :
    ([] ∈ (analyze (newAnalyzer [str "  "] (str "whole_text")) (str "")).matchedKeywords ∧
     (analyze (newAnalyzer [str "  "] (str "whole_text")) (str "")).isDangerous = true) ∧
    [] ∉ (analyze (newAnalyzer [str "  "] (str "tokens")) (str "")).matchedKeywords :=
  C10_empty_keyword [str "  "] (str "  ") (str "") (by decide) (by decide)

/-! ## Claim C8 -/

/-- An auditor state one byte below the rotation cap, with one open file
that received no entry this session. -/
def auditFullState : AuditorState :=
  { file := some 0, files := [(0, [])], currentSize := 10485759 }

set_option maxRecDepth 4000 in
/-- Claim C8 is right and the code is wrong: when appending would cross
the cap, `Log` calls `rotateOpen`, which closes the current file before
attempting to open the new one; if that open fails, the fallback write
targets the already-nil handle, so the record is written to no file at
all (first conjunct) — contradicting the code's own comment that it still
writes to the current file to avoid losing the entry.  When the open
succeeds, the entry goes to the new file as claimed (second conjunct). -/
theorem C8_rotation_failure_loses_record :
    ((auditorLog false 1 (str "2026-01-01T00:00:00Z") (str "DROP TABLE t") [str "drop"]
        true (str "SUCCESS") (str "db1") auditFullState).files = [(0, [])] ∧
     (auditorLog false 1 (str "2026-01-01T00:00:00Z") (str "DROP TABLE t") [str "drop"]
        true (str "SUCCESS") (str "db1") auditFullState).file = none) ∧
    (auditorLog true 1 (str "2026-01-01T00:00:00Z") (str "DROP TABLE t") [str "drop"]
        true (str "SUCCESS") (str "db1") auditFullState).files =
      [(0, []),
       (1, buildEntry (str "2026-01-01T00:00:00Z") (str "DROP TABLE t") [str "drop"]
            true (str "SUCCESS") (str "db1"))] := by
  decide

/-! ## Router lemmas -/

theorem lookupPair_isSome_of_mem {l : List (Str × Str)} {n : Str}
    (h : n ∈ l.map Prod.fst) : (lookupPair l n).isSome := by
  induction l with
  | nil => simp at h
  | cons kv rest ih =>
    simp only [lookupPair]
    by_cases hk : kv.1 = n
    · simp [hk]
    · rw [if_neg hk]
      simp only [List.map_cons, List.mem_cons] at h
      rcases h with heq | hmem
      · exact absurd heq.symm hk
      · exact ih hmem

theorem insertPair_of_not_mem {l : List (Str × Str)} {n : Str} (v : Str)
    (h : n ∉ l.map Prod.fst) : insertPair l n v = l ++ [(n, v)] := by
  induction l with
  | nil => rfl
  | cons kv rest ih =>
    simp only [insertPair]
    have hk : ¬ kv.1 = n := by
      intro he
      exact h (by simp [← he])
    rw [if_neg hk, ih (fun hm => h (by simp [hm]))]
    rfl

theorem keys_nodup_snd_eq {l : List (Str × Str)} (h : (l.map Prod.fst).Nodup)
    {n d d2 : Str} (h1 : (n, d) ∈ l) (h2 : (n, d2) ∈ l) : d = d2 := by
  induction l with
  | nil => simp at h1
  | cons kv rest ih =>
    simp only [List.map_cons, List.nodup_cons] at h
    rcases List.mem_cons.mp h1 with he1 | hm1
    · rcases List.mem_cons.mp h2 with he2 | hm2
      · rw [← he1] at he2
        exact (congrArg Prod.snd he2.symm :)
      · exfalso
        apply h.1
        have : kv.1 = n := congrArg Prod.fst he1.symm
        rw [this]
        exact List.mem_map_of_mem Prod.fst hm2
    · rcases List.mem_cons.mp h2 with he2 | hm2
      · exfalso
        apply h.1
        have : kv.1 = n := congrArg Prod.fst he2.symm
        rw [this]
        exact List.mem_map_of_mem Prod.fst hm1
      · exact ih h.2 hm1 hm2

theorem Pool.WF.executors_nodup {p : Pool} (h : p.WF) : p.executors.Nodup :=
  (List.nodup_append.mp h.1).1

theorem Pool.WF.failedKeys_nodup {p : Pool} (h : p.WF) : (p.failed.map Prod.fst).Nodup :=
  (List.nodup_append.mp h.1).2.1

theorem Pool.WF.disjoint {p : Pool} (h : p.WF) :
    ∀ n, n ∈ p.executors → n ∈ p.failed.map Prod.fst → False := fun _ ha hb =>
  (List.nodup_append.mp h.1).2.2 ha hb

theorem Pool.WF.mem_names_of_mem_executors {p : Pool} (h : p.WF) {n : Str}
    (hex : n ∈ p.executors) : n ∈ p.names :=
  h.2.1.mem_iff.mpr (List.mem_append_left _ hex)

theorem mem_cons_removeName {l : List Str} {n : Str} (h : n ∈ l) :
    List.Perm l (n :: removeName l n) := by
  induction l with
  | nil => simp at h
  | cons x rest ih =>
    by_cases hx : x = n
    · subst hx
      simp [removeName]
    · simp only [removeName, if_neg hx]
      rcases List.mem_cons.mp h with he | hm
      · exact absurd he.symm hx
      · exact ((ih hm).cons x).trans (List.Perm.swap n x (removeName rest n))

theorem not_mem_removeName {l : List Str} (hnd : l.Nodup) (n : Str) :
    n ∉ removeName l n := by
  induction l with
  | nil => simp [removeName]
  | cons x rest ih =>
    rw [List.nodup_cons] at hnd
    by_cases hx : x = n
    · subst hx
      simpa [removeName] using hnd.1
    · simp only [removeName, if_neg hx]
      intro hmem
      rcases List.mem_cons.mp hmem with he | hm
      · exact hx he.symm
      · exact ih hnd.2 hm

theorem markConnectionFailed_WF {p : Pool} {n : Str} (hwf : p.WF) :
    (markConnectionFailed p n).WF ∧ (markConnectionFailed p n).names = p.names := by
  by_cases hex : n ∈ p.executors
  · have hnames : n ∈ p.names := hwf.mem_names_of_mem_executors hex
    obtain ⟨d, hd⟩ := Option.isSome_iff_exists.mp (hwf.2.2 n hnames)
    have hnk : n ∉ p.failed.map Prod.fst := fun hk => hwf.disjoint n hex hk
    have hmark : markConnectionFailed p n =
        { p with executors := removeName p.executors n, failed := p.failed ++ [(n, d)] } := by
      unfold markConnectionFailed
      rw [if_pos hex, hd]
      dsimp only
      rw [insertPair_of_not_mem d hnk]
    rw [hmark]
    have h1 : List.Perm (p.executors ++ p.failed.map Prod.fst)
        ((n :: removeName p.executors n) ++ p.failed.map Prod.fst) :=
      (mem_cons_removeName hex).append_right _
    have h2 : List.Perm ((n :: removeName p.executors n) ++ p.failed.map Prod.fst)
        ((removeName p.executors n ++ p.failed.map Prod.fst) ++ [n]) :=
      (List.perm_append_singleton n _).symm
    have h3 : (removeName p.executors n ++ p.failed.map Prod.fst) ++ [n]
        = removeName p.executors n ++ (p.failed ++ [(n, d)]).map Prod.fst := by
      simp [List.append_assoc]
    have hperm : List.Perm (p.executors ++ p.failed.map Prod.fst)
        (removeName p.executors n ++ (p.failed ++ [(n, d)]).map Prod.fst) := by
      have h4 := h1.trans h2
      rw [h3] at h4
      exact h4
    exact ⟨⟨hperm.nodup hwf.1, hwf.2.1.trans hperm, fun m hm => hwf.2.2 m hm⟩, rfl⟩
  · have hmark : markConnectionFailed p n = p := by
      unfold markConnectionFailed
      rw [if_neg hex]
    rw [hmark]
    exact ⟨hwf, rfl⟩

theorem retryFailed_WF {p : Pool} (connect : Str → Bool) (hwf : p.WF) :
    (retryFailed connect p).WF ∧ (retryFailed connect p).names = p.names := by
  unfold retryFailed
  have hperm : List.Perm (p.executors ++ p.failed.map Prod.fst)
      ((p.executors ++ (p.failed.filter (fun nd => connect nd.2)).map Prod.fst) ++
        (p.failed.filter (fun nd => !connect nd.2)).map Prod.fst) := by
    rw [List.append_assoc, ← List.map_append]
    exact ((List.filter_append_perm _ p.failed).map Prod.fst).symm.append_left p.executors
  refine ⟨⟨?_, ?_, ?_⟩, rfl⟩
  · exact hperm.nodup hwf.1
  · exact hwf.2.1.trans hperm
  · exact hwf.2.2

theorem resolveName_ne {p : Pool} {n : Str} (hn : n ≠ []) : resolveName p n = n := by
  unfold resolveName
  rw [if_neg hn]

/-- Shape of one `Execute` call: the pool either stays unchanged or is the
result of demoting the resolved name. -/
theorem poolExecute_shape (p : Pool) (c : Str) (run : Str → ExecOutcome) :
    (poolExecute p c run).1 = p ∨
    (poolExecute p c run).1 = markConnectionFailed p (resolveName p c) := by
  unfold poolExecute
  dsimp only
  split
  · exact Or.inl rfl
  · split
    · split
      · exact Or.inl rfl
      · split
        · exact Or.inr rfl
        · exact Or.inl rfl
    · split
      · exact Or.inl rfl
      · exact Or.inl rfl

/-! ## Claim C5 -/

/-- Claim C5: resolution of the connection name by `Execute`: an empty
name with exactly one configured connection behaves exactly like naming
that connection; an empty name with several configured connections fails
with the name-required error; a name in the Failed state fails with the
unavailable error; an unconfigured name fails with the unknown-connection
error — and in each failure case the pool is unchanged and the result does
not depend on the executor, i.e. no SQL is executed. -/
theorem C5_connection_resolution (p : Pool) (n : Str) (run : Str → ExecOutcome) :
    (p.names = [n] → poolExecute p [] run = poolExecute p n run) ∧
    (2 ≤ p.names.length → poolExecute p [] run = (p, .error nameRequiredErr)) ∧
    (p.WF → n ≠ [] → n ∈ p.failed.map Prod.fst →
      poolExecute p n run = (p, .error (unavailableErr n))) ∧
    (n ≠ [] → n ∉ p.executors → n ∉ p.failed.map Prod.fst →
      poolExecute p n run = (p, .error (unknownErr n))) := by
  refine ⟨?_, ?_, ?_, ?_⟩
  · intro h
    by_cases hn : n = []
    · subst hn
      rfl
    · have hres : resolveName p [] = n := by
        unfold resolveName
        simp [h]
      have hres2 : resolveName p n = n := resolveName_ne hn
      unfold poolExecute
      rw [hres, hres2]
  · intro h
    have hne : p.names.length ≠ 1 := by omega
    have hres : resolveName p [] = [] := by
      unfold resolveName
      simp [hne]
    simp [poolExecute, hres]
  · intro hwf hn hfk
    have hnotex : n ∉ p.executors := fun hex => hwf.disjoint n hex hfk
    simp [poolExecute, resolveName_ne hn, hn, hnotex, hfk]
  · intro hn hnotex hnfk
    simp [poolExecute, resolveName_ne hn, hn, hnotex, hnfk]

/-- Witness for claim C5 on concrete pools: a single-connection pool
accepts the empty name; a two-connection pool rejects it; a failed name
and an unknown name produce their respective errors. -/
theorem C5_witness :
    poolExecute poolOne [] (fun _ => .ok) = poolExecute poolOne (str "db1") (fun _ => .ok) ∧
    poolExecute poolTwo [] (fun _ => .ok) = (poolTwo, .error nameRequiredErr) ∧
    poolExecute
        { executors := [], failed := [(str "db1", str "dsn1")],
          dsns := [(str "db1", str "dsn1")], names := [str "db1"] }
        (str "db1") (fun _ => .ok) =
      ({ executors := [], failed := [(str "db1", str "dsn1")],
         dsns := [(str "db1", str "dsn1")], names := [str "db1"] },
       .error (unavailableErr (str "db1"))) ∧
    poolExecute poolTwo (str "nosuch") (fun _ => .ok) =
      (poolTwo, .error (unknownErr (str "nosuch"))) := by
  refine ⟨(C5_connection_resolution poolOne (str "db1") (fun _ => .ok)).1 (by decide),
    (C5_connection_resolution poolTwo [] (fun _ => .ok)).2.1 (by decide),
    (C5_connection_resolution _ (str "db1") (fun _ => .ok)).2.2.1 (by decide) (by decide)
      (by decide),
    (C5_connection_resolution poolTwo (str "nosuch") (fun _ => .ok)).2.2.2 (by decide)
      (by decide) (by decide)⟩

/-! ## Claim C6 -/

/-- Claim C6: after an execution error on a healthy connection, the router
demotes that connection to Failed if and only if the error text carries a
connection-class signature; a non-connection error leaves the entire pool
state unchanged; in both cases the error is surfaced to the caller; and a
successful reconnection during the discovery operation moves a Failed name
back to Healthy. -/
theorem C6_demotion (p : Pool) (n e d : Str) (run : Str → ExecOutcome)
    (connect : Str → Bool) (hwf : p.WF) :
    (n ≠ [] → n ∈ p.executors → run n = .errText e →
      (isConnectionError e = true →
        poolExecute p n run = (markConnectionFailed p n, .error e) ∧
        n ∉ (markConnectionFailed p n).executors ∧
        n ∈ (markConnectionFailed p n).failed.map Prod.fst) ∧
      (isConnectionError e = false →
        poolExecute p n run = (p, .error e))) ∧
    ((n, d) ∈ p.failed → connect d = true →
      n ∈ (retryFailed connect p).executors ∧
      n ∉ (retryFailed connect p).failed.map Prod.fst ∧
      (listConnectionsWithStatus connect p).1 = retryFailed connect p) := by
  constructor
  · intro hn hex hrun
    constructor
    · intro hce
      refine ⟨by simp [poolExecute, resolveName_ne hn, hn, hex, hrun, hce], ?_, ?_⟩
      · unfold markConnectionFailed
        rw [if_pos hex]
        exact not_mem_removeName hwf.executors_nodup n
      · unfold markConnectionFailed
        rw [if_pos hex]
        have hnames : n ∈ p.names := hwf.mem_names_of_mem_executors hex
        obtain ⟨d2, hd2⟩ := Option.isSome_iff_exists.mp (hwf.2.2 n hnames)
        have hnk : n ∉ p.failed.map Prod.fst := fun hk => hwf.disjoint n hex hk
        rw [hd2]
        dsimp only
        rw [insertPair_of_not_mem d2 hnk]
        simp
    · intro hce
      simp [poolExecute, resolveName_ne hn, hn, hex, hrun, hce]
  · intro hfd hcd
    refine ⟨?_, ?_, rfl⟩
    · unfold retryFailed
      refine List.mem_append_right _ (List.mem_map.mpr ⟨(n, d), ?_, rfl⟩)
      rw [List.mem_filter]
      exact ⟨hfd, by simpa using hcd⟩
    · unfold retryFailed
      intro hmem
      simp only at hmem
      obtain ⟨nd2, hnd2, hfst⟩ := List.mem_map.mp hmem
      rw [List.mem_filter] at hnd2
      have hd2 : nd2 = (n, nd2.2) := by
        cases nd2
        simp only at hfst
        simp [hfst]
      rw [hd2] at hnd2
      have := keys_nodup_snd_eq hwf.failedKeys_nodup hfd hnd2.1
      rw [← this] at hnd2
      simp [hcd] at hnd2

/-- Witness for claim C6: the TNS no-listener error demotes a healthy
connection, a unique-constraint error leaves the pool untouched, and a
successful retry recovers a failed name. -/
theorem C6_witness :
    (poolExecute poolTwo (str "db1")
        (fun _ => .errText (str "ORA-12541: TNS:no listener")) =
      (markConnectionFailed poolTwo (str "db1"),
       .error (str "ORA-12541: TNS:no listener")) ∧
     str "db1" ∉ (markConnectionFailed poolTwo (str "db1")).executors ∧
     str "db1" ∈ (markConnectionFailed poolTwo (str "db1")).failed.map Prod.fst) ∧
    (poolExecute poolTwo (str "db1")
        (fun _ => .errText (str "ORA-00001: unique constraint violated")) =
      (poolTwo, .error (str "ORA-00001: unique constraint violated"))) ∧
    (str "db1" ∈ (retryFailed (fun _ => true)
        { executors := [], failed := [(str "db1", str "dsn1")],
          dsns := [(str "db1", str "dsn1")], names := [str "db1"] }).executors) := by
  have h1 := C6_demotion poolTwo (str "db1") (str "ORA-12541: TNS:no listener") (str "dsn1")
    (fun _ => .errText (str "ORA-12541: TNS:no listener")) (fun _ => true) (by decide)
  have h2 := C6_demotion poolTwo (str "db1") (str "ORA-00001: unique constraint violated")
    (str "dsn1") (fun _ => .errText (str "ORA-00001: unique constraint violated"))
    (fun _ => true) (by decide)
  have h3 := C6_demotion
    { executors := [], failed := [(str "db1", str "dsn1")],
      dsns := [(str "db1", str "dsn1")], names := [str "db1"] }
    (str "db1") [] (str "dsn1") (fun _ => .ok) (fun _ => true) (by decide)
  refine ⟨(h1.1 (by decide) (by decide) rfl).1 (by decide),
    (h2.1 (by decide) (by decide) rfl).2 (by decide),
    (h3.2 (by decide) (by decide)).1⟩

/-! ## Claim C7 -/

/-- Claim C7: the configured name set is fixed at construction and every
router operation preserves the exactly-one-of-Healthy-or-Failed partition:
`NewExecutorPool` establishes well-formedness with the configured names;
`Execute` (with its demotion side effect), `RetryFailed` and
`ListConnectionsWithStatus` all preserve both the name list and
well-formedness. -/
theorem C7_partition_invariant :
    (∀ (conns : List (Str × Str)) (connect : Str → Bool), conns ≠ [] →
      (conns.map Prod.fst).Nodup →
      ∃ p, newExecutorPool conns connect = some p ∧ p.WF ∧
        p.names = conns.map Prod.fst) ∧
    (∀ (p : Pool) (c : Str) (run : Str → ExecOutcome), p.WF →
      (poolExecute p c run).1.names = p.names ∧ (poolExecute p c run).1.WF) ∧
    (∀ (p : Pool) (connect : Str → Bool), p.WF →
      (retryFailed connect p).names = p.names ∧ (retryFailed connect p).WF) ∧
    (∀ (p : Pool) (connect : Str → Bool), p.WF →
      (listConnectionsWithStatus connect p).1.names = p.names ∧
      (listConnectionsWithStatus connect p).1.WF) := by
  refine ⟨?_, ?_, ?_, ?_⟩
  · intro conns connect hne hnd
    have hpool : newExecutorPool conns connect = some
        { executors := (conns.filter (fun nd => connect nd.2)).map Prod.fst
          failed := conns.filter (fun nd => !connect nd.2)
          dsns := conns
          names := conns.map Prod.fst } := by
      unfold newExecutorPool
      rw [if_neg hne]
    have hperm : List.Perm (conns.map Prod.fst)
        ((conns.filter (fun nd => connect nd.2)).map Prod.fst ++
          (conns.filter (fun nd => !connect nd.2)).map Prod.fst) := by
      rw [← List.map_append]
      exact ((List.filter_append_perm _ conns).map Prod.fst).symm
    exact ⟨_, hpool, ⟨hperm.nodup hnd, hperm, fun m hm => lookupPair_isSome_of_mem hm⟩, rfl⟩
  · intro p c run hwf
    rcases poolExecute_shape p c run with hp | hp
    · rw [hp]
      exact ⟨rfl, hwf⟩
    · rw [hp]
      have h := markConnectionFailed_WF (n := resolveName p c) hwf
      exact ⟨h.2, h.1⟩
  · intro p connect hwf
    have h := retryFailed_WF connect hwf
    exact ⟨h.2, h.1⟩
  · intro p connect hwf
    have h := retryFailed_WF connect hwf
    exact ⟨h.2, h.1⟩

/-- Witness for claim C7 on concrete data: construction from one
connection yields a well-formed pool, and execution with a demoting error
on a two-connection pool preserves the names and well-formedness. -/
theorem C7_witness :
    (∃ p, newExecutorPool [(str "a", str "d")] (fun _ => true) = some p ∧ p.WF ∧
      p.names = [str "a"]) ∧
    ((poolExecute poolTwo (str "db1")
        (fun _ => .errText (str "ORA-12541: TNS:no listener"))).1.names = poolTwo.names ∧
     (poolExecute poolTwo (str "db1")
        (fun _ => .errText (str "ORA-12541: TNS:no listener"))).1.WF) := by
  constructor
  · exact C7_partition_invariant.1 [(str "a", str "d")] (fun _ => true) (by decide) (by decide)
  · exact C7_partition_invariant.2.1 poolTwo (str "db1")
      (fun _ => .errText (str "ORA-12541: TNS:no listener")) (by decide)

/-! ## Claim C2 -/

/-- Claim C2 as frozen is false on the code: an execute call with an
empty connection name on a two-connection pool (first conjunct), or with
an unknown connection name (second conjunct), does write an audit record
— `handleExecuteSQL` audits `Execute`'s resolution errors as
EXECUTION_ERROR, it does not skip auditing. -/
theorem C2_counterexample :
    (handleExecuteSQL true (newAnalyzer [] (str "whole_text")) poolTwo (.answer true)
        (fun _ => .ok) (str "SELECT 1 FROM dual") []).2.2 ≠ [] ∧
    (handleExecuteSQL true (newAnalyzer [] (str "whole_text")) poolTwo (.answer true)
        (fun _ => .ok) (str "SELECT 1 FROM dual") (str "nosuch")).2.2 ≠ [] := by
  decide

/-- Claim C2 (amended): when execute is invoked with an unknown connection
name, or with an empty name while several connections are configured, the
request fails at connection resolution before any execution is attempted
(the pool is unchanged and the outcome does not depend on the executors),
and exactly one audit record is written for it, with approved = false and
action EXECUTION_ERROR followed by the resolution error text. -/
theorem C2_resolution_failure_audited (reqDDL : Bool) (a : Analyzer) (p : Pool)
    (confirm : ConfirmOutcome) (sql connArg : Str)
    (hconf : ((analyze a sql).isDangerous || (reqDDL && (analyze a sql).isDDL)) = true →
      confirm = .answer true)
    (h2 : (trimSpace connArg = [] ∧ 2 ≤ p.names.length) ∨
          (trimSpace connArg ≠ [] ∧ trimSpace connArg ∉ p.executors ∧
            trimSpace connArg ∉ p.failed.map Prod.fst)) :
    ∀ run : Str → ExecOutcome,
      handleExecuteSQL reqDDL a p confirm run sql connArg =
        (p, .executionFailedResp
              (if trimSpace connArg = [] then nameRequiredErr
               else unknownErr (trimSpace connArg)),
         [{ sql := sql, keywords := (analyze a sql).matchedKeywords, approved := false,
            action := str "EXECUTION_ERROR: " ++
              (if trimSpace connArg = [] then nameRequiredErr
               else unknownErr (trimSpace connArg)),
            connection := trimSpace connArg }]) := by
  intro run
  have hpe : poolExecute p (trimSpace connArg) run =
      (p, .error (if trimSpace connArg = [] then nameRequiredErr
        else unknownErr (trimSpace connArg))) := by
    rcases h2 with ⟨hnil, hlen⟩ | ⟨hne, hnex, hnfk⟩
    · rw [hnil, if_pos rfl]
      exact (C5_connection_resolution p [] run).2.1 hlen
    · rw [if_neg hne]
      exact (C5_connection_resolution p (trimSpace connArg) run).2.2.2 hne hnex hnfk
  have hdisp : (if trimSpace connArg = [] ∧ p.names.length = 1 then p.names.headD []
      else trimSpace connArg) = trimSpace connArg := by
    rcases h2 with ⟨hnil, hlen⟩ | ⟨hne, _, _⟩
    · rw [if_neg]
      rintro ⟨_, h1⟩
      omega
    · rw [if_neg]
      rintro ⟨h0, _⟩
      exact hne h0
  by_cases hneed : ((analyze a sql).isDangerous || (reqDDL && (analyze a sql).isDDL)) = true
  · simp only [handleExecuteSQL, execPhase, hdisp, hpe, hneed, if_true, hconf hneed]
  · simp only [handleExecuteSQL, execPhase, hdisp, hpe]
    rw [if_neg hneed]

/-- Witness for the amended claim C2: empty connection argument against a
two-connection pool, no confirmation needed: one EXECUTION_ERROR audit
record with the name-required error, pool unchanged. -/
theorem C2_witness :
    handleExecuteSQL true (newAnalyzer [] (str "whole_text")) poolTwo (.answer true)
        (fun _ => .ok) (str "SELECT 1 FROM dual") [] =
      (poolTwo, .executionFailedResp nameRequiredErr,
       [{ sql := str "SELECT 1 FROM dual", keywords := [], approved := false,
          action := str "EXECUTION_ERROR: " ++ nameRequiredErr, connection := [] }]) := by
  have h := C2_resolution_failure_audited true (newAnalyzer [] (str "whole_text")) poolTwo
    (.answer true) (str "SELECT 1 FROM dual") [] (fun _ => rfl) (Or.inl ⟨rfl, by decide⟩)
    (fun _ => .ok)
  exact h.trans (by decide)

/-! ## Claim C3 -/

/-- Claim C3 as frozen is false on the code: when the dialog subprocess
crashes (all temp files written, `cmd.Run` fails), the Windows
`Confirmer.Confirm` returns `(false, nil)` — no error — so
`handleExecuteSQL` audits USER_REJECTED and answers with the
user-rejection response, exactly as if the user had clicked "no". -/
theorem C3_counterexample :
    winConfirm crashEnv = (false, none) ∧
    (handleExecuteSQL false (newAnalyzer [str "drop"] (str "whole_text")) poolOne
        (outcomeOfPair (winConfirm crashEnv)) (fun _ => .ok) (str "DROP TABLE t") []).2 =
      (.userRejectedResp [str "drop"],
       [{ sql := str "DROP TABLE t", keywords := [str "drop"], approved := false,
          action := str "USER_REJECTED", connection := str "db1" }]) := by
  decide

/-- Claim C3 (amended): when confirmation is required and the confirmation
collaborator returns an error (on Windows, a temp-file write failure), the
outcome is audited with action CONFIRM_ERROR (never equal to
USER_REJECTED) and surfaced as the distinct confirmation-dialog-error
response (never the user-rejected response, never success), with no
execution attempted; however, a crash of the dialog subprocess is returned
by the Windows confirmer as a non-approval with no error, and is therefore
treated as a rejection downstream. -/
theorem C3_collaborator_error :
    (∀ (reqDDL : Bool) (a : Analyzer) (p : Pool) (run : Str → ExecOutcome)
        (sql connArg e : Str),
      ((analyze a sql).isDangerous || (reqDDL && (analyze a sql).isDDL)) = true →
      handleExecuteSQL reqDDL a p (.err e) run sql connArg =
        (p, .confirmDialogError e,
         [{ sql := sql, keywords := (analyze a sql).matchedKeywords, approved := false,
            action := str "CONFIRM_ERROR: " ++ e,
            connection := if trimSpace connArg = [] ∧ p.names.length = 1
              then p.names.headD [] else trimSpace connArg }]) ∧
      str "CONFIRM_ERROR: " ++ e ≠ str "USER_REJECTED" ∧
      (∀ ks, ExecResponse.confirmDialogError e ≠ .userRejectedResp ks) ∧
      ExecResponse.confirmDialogError e ≠ .successResp) ∧
    (∀ env : WinEnv, env.writeHtmlOk = true → env.writeHeaderOk = true →
      env.writeScriptOk = true → env.runOk = false →
      winConfirm env = (false, none) ∧ outcomeOfPair (winConfirm env) = .answer false) := by
  constructor
  · intro reqDDL a p run sql connArg e hneed
    refine ⟨?_, ?_, ?_, ?_⟩
    · simp only [handleExecuteSQL, hneed, if_true]
    · intro h
      rw [show str "CONFIRM_ERROR: " = 67 :: str "ONFIRM_ERROR: " from by decide,
          show str "USER_REJECTED" = 85 :: str "SER_REJECTED" from by decide,
          List.cons_append, List.cons_eq_cons] at h
      exact absurd h.1 (by decide)
    · intro ks h
      exact ExecResponse.noConfusion h
    · intro h
      exact ExecResponse.noConfusion h
  · intro env h1 h2 h3 h4
    constructor
    · simp [winConfirm, h1, h2, h3, h4]
    · simp [winConfirm, outcomeOfPair, h1, h2, h3, h4]

/-- Witness for the amended claim C3: a temp-file write failure on a
dangerous statement is audited CONFIRM_ERROR and surfaced as the dialog
error, and the crash environment produces the erroneous non-error
rejection. -/
theorem C3_witness :
    handleExecuteSQL false (newAnalyzer [str "drop"] (str "whole_text")) poolOne
        (.err (str "confirm: cannot write HTML temp file")) (fun _ => .ok)
        (str "DROP TABLE t") [] =
      (poolOne, .confirmDialogError (str "confirm: cannot write HTML temp file"),
       [{ sql := str "DROP TABLE t", keywords := [str "drop"], approved := false,
          action := str "CONFIRM_ERROR: " ++ str "confirm: cannot write HTML temp file",
          connection := str "db1" }]) ∧
    winConfirm crashEnv = (false, none) := by
  constructor
  · have h := (C3_collaborator_error.1 false (newAnalyzer [str "drop"] (str "whole_text"))
      poolOne (fun _ => .ok) (str "DROP TABLE t") []
      (str "confirm: cannot write HTML temp file") (by decide)).1
    exact h.trans (by decide)
  · exact (C3_collaborator_error.2 crashEnv rfl rfl rfl rfl).1

end OracleMCP

